import Mathlib

set_option maxRecDepth 8000

/-!
Verification of the Harmony STL codec (ASCII / binary STL reader-writer).

Shallow embedding of `src/Harmony/STL/Mesh.h`, `src/Harmony/STL/Binary.h`,
`src/src/STL/Ascii.cpp`, `src/src/STL/Binary.cpp` and `src/src/STL/Parse.cpp`.

Modelling choices, stated once here:

* 32-bit IEEE-754 floats are represented by their bit patterns (`Nat`,
  value below `2^32`).  The semantic value of a finite bit pattern is the
  exact rational it denotes (`f32ToRat`).  Floating-point operations are
  modelled as exact rational arithmetic followed by round-to-nearest-even
  back to the binary32 grid (`roundF32`), which is exactly the IEEE-754
  semantics of `+`, `-`, `*`, `/` on finite operands with round-to-nearest.
  The special values Inf/NaN are decoded as 0 by `f32ToRat` (an
  idealization: the claims under verification only concern finite data,
  and no theorem below relies on Inf/NaN arithmetic).  Negative zero is
  identified with zero by `f32ToRat`.
* Byte streams are `List Nat` (each element a byte value).  `read_exact`
  on a stream succeeds if and only if enough bytes remain, exactly like
  the `std::istream` loop in `Binary.h`.
* `std::from_chars<float>` is modelled by `from_chars_f32`: the decimal /
  exponent grammar evaluated exactly and rounded to nearest binary32;
  out-of-range results (overflow to infinity, or a nonzero literal
  rounding to zero) fail, matching `errc::result_out_of_range`; the whole
  token must be consumed.
* Exact fractions are a private unnormalized pair `Q` (numerator /
  positive denominator) rather than `ℚ`, so that every comparison is a
  single integer comparison that the kernel evaluates directly.
-/

namespace Harmony.STL

/-- Unnormalized exact fraction: `num / den`, `den` kept positive by
construction in every operation below. -/
structure Q where
  num : Int
  den : Nat
deriving Repr, DecidableEq

def qZero : Q := ⟨0, 1⟩

def qAdd (a b : Q) : Q := ⟨a.num * (b.den : Int) + b.num * (a.den : Int), a.den * b.den⟩

def qSub (a b : Q) : Q := ⟨a.num * (b.den : Int) - b.num * (a.den : Int), a.den * b.den⟩

def qMul (a b : Q) : Q := ⟨a.num * b.num, a.den * b.den⟩

def qNeg (a : Q) : Q := ⟨-a.num, a.den⟩

def qAbs (a : Q) : Q := ⟨(a.num.natAbs : Int), a.den⟩

/-- Exact division; division by zero gives the junk value 0 (the code only
divides under a positivity guard). -/
def qDiv (a b : Q) : Q :=
  if 0 < b.num then ⟨a.num * (b.den : Int), a.den * b.num.toNat⟩
  else if b.num < 0 then ⟨-(a.num * (b.den : Int)), a.den * (-b.num).toNat⟩
  else qZero

def qLt (a b : Q) : Bool := a.num * (b.den : Int) < b.num * (a.den : Int)

def qFloor (a : Q) : Int := a.num.fdiv (a.den : Int)

/-- Round a nonnegative fraction to the nearest natural number, ties to even. -/
def qRoundNE (a : Q) : Nat :=
  let f := qFloor a
  let r2 := 2 * (a.num - f * (a.den : Int))
  if r2 < (a.den : Int) then f.toNat
  else if (a.den : Int) < r2 then (f + 1).toNat
  else if f % 2 == 0 then f.toNat else (f + 1).toNat

def qPow2 (k : Int) : Q :=
  if 0 ≤ k then ⟨2 ^ k.toNat, 1⟩ else ⟨1, 2 ^ (-k).toNat⟩

/-- Fueled `⌊log2⌋` on naturals (structural, kernel-reducible). -/
def log2Aux : Nat → Nat → Nat
  | 0, _ => 0
  | fuel + 1, n => if n < 2 then 0 else log2Aux fuel (n / 2) + 1

def natLog2 (n : Nat) : Nat := log2Aux n n

/-- `⌊log2 a⌋` for a positive fraction. -/
def qFloorLog2 (a : Q) : Int :=
  let d : Int := (natLog2 a.num.toNat : Int) - (natLog2 a.den : Int)
  if qLt a (qPow2 d) then d - 1 else d

/-- Fueled integer Newton iteration for `⌊√n⌋`. -/
def sqrtAux : Nat → Nat → Nat → Nat
  | 0, _, x => x
  | fuel + 1, n, x =>
    let y := (x + n / x) / 2
    if y < x then sqrtAux fuel n y else x

def natSqrt (n : Nat) : Nat := if n ≤ 1 then n else sqrtAux n n (n / 2 + 1)

/-- Round an exact fraction to the nearest IEEE-754 binary32 bit pattern
(round to nearest, ties to even; overflow gives the Inf bit pattern). -/
def roundF32 (a : Q) : Nat :=
  if a.num == 0 then 0 else
  let s : Nat := if a.num < 0 then 2 ^ 31 else 0
  let x := qAbs a
  let e : Int := max (qFloorLog2 x) (-126)
  let m := qRoundNE (qMul x (qPow2 (23 - e)))
  if m == 0 then s
  else if m < 2 ^ 23 then s + m
  else
    let m2 := if m == 2 ^ 24 then 2 ^ 23 else m
    let e2 := if m == 2 ^ 24 then e + 1 else e
    if 127 < e2 then s + 255 * 2 ^ 23
    else s + (e2 + 127).toNat * 2 ^ 23 + (m2 - 2 ^ 23)

/-- Exact rational value of a binary32 bit pattern (Inf/NaN ↦ 0, see the
modelling notes in the file header). -/
def f32ToRat (b : Nat) : Q :=
  let s : Nat := b / 2 ^ 31 % 2
  let e : Nat := b / 2 ^ 23 % 256
  let f : Nat := b % 2 ^ 23
  let mag : Q :=
    if e == 0 then ⟨(f : Int), 2 ^ 149⟩
    else if e == 255 then qZero
    else if 150 ≤ e then ⟨((2 ^ 23 + f : Nat) : Int) * (2 : Int) ^ (e - 150), 1⟩
    else ⟨((2 ^ 23 + f : Nat) : Int), 2 ^ (150 - e)⟩
  if s == 1 then qNeg mag else mag

/-- IEEE binary32 addition on bit patterns (exact value, then round). -/
def fAdd (a b : Nat) : Nat := roundF32 (qAdd (f32ToRat a) (f32ToRat b))

def fSub (a b : Nat) : Nat := roundF32 (qSub (f32ToRat a) (f32ToRat b))

def fMul (a b : Nat) : Nat := roundF32 (qMul (f32ToRat a) (f32ToRat b))

def fDiv (a b : Nat) : Nat := roundF32 (qDiv (f32ToRat a) (f32ToRat b))

/-- `std::abs` on a float clears the sign bit. -/
def fAbs (b : Nat) : Nat := b % 2 ^ 31

/-- `<` on float bit patterns via their exact values. -/
def fLt (a b : Nat) : Bool := qLt (f32ToRat a) (f32ToRat b)

/-- Correctly rounded `std::sqrt` on a binary32 bit pattern: the result is
the nearest representable float to the real square root (nonpositive
values give 0; the code only takes square roots of sums of squares). -/
def fsqrt (b : Nat) : Nat :=
  let q := f32ToRat b
  if q.num ≤ 0 then 0 else
  let e : Int := (qFloorLog2 q).fdiv 2
  let n := qMul q (qPow2 (2 * (23 - e)))
  let m0 := natSqrt (n.num.toNat * n.den) / n.den
  let l : Int := 4 * n.num
  let r : Int := (((2 * m0 + 1) ^ 2 : Nat) : Int) * (n.den : Int)
  let m := if l < r then m0 else if r < l then m0 + 1
           else if m0 % 2 == 0 then m0 else m0 + 1
  let m2 := if m == 2 ^ 24 then 2 ^ 23 else m
  let e2 := if m == 2 ^ 24 then e + 1 else e
  (e2 + 127).toNat * 2 ^ 23 + (m2 - 2 ^ 23)

/-! ## Data model (`Harmony/STL/Mesh.h`)

`Vec3` holds the bit patterns of its three `float` components; a
default-initialized C++ `float` is `0.0f`, whose bit pattern is 0. -/

structure Vec3 where
  x : Nat
  y : Nat
  z : Nat
deriving Repr, DecidableEq

structure Triangle where
  normal : Vec3
  v0 : Vec3
  v1 : Vec3
  v2 : Vec3
deriving Repr, DecidableEq

structure Mesh where
  name : String
  tris : List Triangle
deriving Repr, DecidableEq

def zeroVec : Vec3 := ⟨0, 0, 0⟩

def defTri : Triangle := ⟨zeroVec, zeroVec, zeroVec, zeroVec⟩

/-- `sub` lambda inside `face_normal`. -/
def subV (a b : Vec3) : Vec3 := ⟨fSub a.x b.x, fSub a.y b.y, fSub a.z b.z⟩

/-- `cross` lambda inside `face_normal`. -/
def crossV (a b : Vec3) : Vec3 :=
  ⟨fSub (fMul a.y b.z) (fMul a.z b.y),
   fSub (fMul a.z b.x) (fMul a.x b.z),
   fSub (fMul a.x b.y) (fMul a.y b.x)⟩

/-- The cross product computed inside `face_normal`:
`cross(sub(t.v[1], t.v[0]), sub(t.v[2], t.v[0]))`. -/
def crossOf (t : Triangle) : Vec3 := crossV (subV t.v1 t.v0) (subV t.v2 t.v0)

/-- `face_normal` from `Mesh.h`: normalized cross product, left
unnormalized when the computed length is not positive. -/
def face_normal (t : Triangle) : Vec3 :=
  let n := crossOf t
  let len := fsqrt (fAdd (fAdd (fMul n.x n.x) (fMul n.y n.y)) (fMul n.z n.z))
  if fLt 0 len then ⟨fDiv n.x len, fDiv n.y len, fDiv n.z len⟩ else n

/-- Bit pattern of the literal `1e-20f`. -/
def lit1em20 : Nat := roundF32 ⟨1, 10 ^ 20⟩

/-- `std::abs(n.x) + std::abs(n.y) + std::abs(n.z)` on a normal vector. -/
def normAbsSum (n : Vec3) : Nat := fAdd (fAdd (fAbs n.x) (fAbs n.y)) (fAbs n.z)

/-- The zero-normal test used by both parsers and both serializers:
`abs(x)+abs(y)+abs(z) < 1e-20f`. -/
def normBelowEps (n : Vec3) : Bool := fLt (normAbsSum n) lit1em20

/-- The missing-normal completion block that both parsers run on each
finished triangle (`Ascii.cpp` endfacet branch / `Binary.cpp` record loop):
when `compute_missing_normals` is set and the normal is below the
threshold, replace it with the geometric face normal. -/
def fillNormal (cmn : Bool) (t : Triangle) : Triangle :=
  if cmn && normBelowEps t.normal then { t with normal := face_normal t } else t

/-! ## Binary codec (`Binary.h` / `Binary.cpp`)

Byte streams are `List Nat`.  `load_le`/`store_le` on a little-endian host
are a plain byte copy; on a big-endian host the bytes are reversed so the
wire format is identical — the model is the wire format. -/

namespace Binary

/-- `read_exact`: succeed iff at least `n` bytes remain, consuming them. -/
def read_exact (n : Nat) (bs : List Nat) : Option (List Nat × List Nat) :=
  if bs.length < n then none else some (bs.take n, bs.drop n)

/-- Little-endian decode of a byte list (`load_le`). -/
def load_le : List Nat → Nat
  | [] => 0
  | b :: t => b % 256 + 256 * load_le t

/-- Little-endian encode of `v` into `k` bytes (`store_le`; the truncation
to `k` bytes is the `memcpy` of the value's object representation). -/
def store_le : Nat → Nat → List Nat
  | 0, _ => []
  | k + 1, v => v % 256 :: store_le k (v / 256)

/-- Trailing-byte trim applied to the 80-byte header when it is used as
the mesh name (`find_last_not_of("\0 \t\r\n")`). -/
def trimTrail (bs : List Nat) : List Nat :=
  ((bs.reverse).dropWhile fun b =>
    b == 0 || b == 32 || b == 9 || b == 13 || b == 10).reverse

/-- One 50-byte record decoded into a triangle; the helper `f idx` reads a
float at byte offset `4*idx`, the last two bytes (attribute count) are
ignored. -/
def decodeTri (rbytes : List Nat) : Triangle :=
  let f := fun (idx : Nat) => load_le ((rbytes.drop (4 * idx)).take 4)
  { normal := ⟨f 0, f 1, f 2⟩
    v0 := ⟨f 3, f 4, f 5⟩
    v1 := ⟨f 6, f 7, f 8⟩
    v2 := ⟨f 9, f 10, f 11⟩ }

def hdrMsg : String := "Binary STL: failed to read 80-byte header"

def cntMsg : String := "Binary STL: failed to read triangle count"

def triMsg : String := "Binary STL: unexpected EOF in triangle data"

/-- The record loop of `Binary::parse`: read `n` 50-byte records in
sequence, failing on the first short read. -/
def parseRecs (cmn : Bool) : Nat → List Nat → Except String (List Triangle)
  | 0, _ => .ok []
  | n + 1, bs =>
    match read_exact 50 bs with
    | none => .error triMsg
    | some (rbytes, rest) =>
      let t := fillNormal cmn (decodeTri rbytes)
      match parseRecs cmn n rest with
      | .error e => .error e
      | .ok ts => .ok (t :: ts)

/-- `Binary::parse`: 80-byte header, 4-byte little-endian count, then
`count` 50-byte records. -/
def parse (bs : List Nat) (cmn : Bool) : Except String Mesh :=
  match read_exact 80 bs with
  | none => .error hdrMsg
  | some (header, r1) =>
    match read_exact 4 r1 with
    | none => .error cntMsg
    | some (cntB, r2) =>
      let triCount := load_le cntB
      let name := String.mk ((trimTrail header).map Char.ofNat)
      match parseRecs cmn triCount r2 with
      | .error e => .error e
      | .ok ts => .ok ⟨name, ts⟩

/-- The 50 bytes written for one (already normal-substituted) triangle:
12 little-endian floats then the caller's attribute byte count. -/
def rawRec (t : Triangle) (attr : Nat) : List Nat :=
  store_le 4 t.normal.x ++ store_le 4 t.normal.y ++ store_le 4 t.normal.z ++
  store_le 4 t.v0.x ++ store_le 4 t.v0.y ++ store_le 4 t.v0.z ++
  store_le 4 t.v1.x ++ store_le 4 t.v1.y ++ store_le 4 t.v1.z ++
  store_le 4 t.v2.x ++ store_le 4 t.v2.y ++ store_le 4 t.v2.z ++
  store_le 2 attr

/-- Per-record write, with the serializer's unconditional zero-normal
substitution (`Binary.cpp` lines 105-109). -/
def recBytes (t : Triangle) (attr : Nat) : List Nat :=
  let t2 := if normBelowEps t.normal then { t with normal := face_normal t } else t
  rawRec t2 attr

def recsBytes : List Triangle → Nat → List Nat
  | [], _ => []
  | t :: ts, attr => recBytes t attr ++ recsBytes ts attr

/-- `Binary::serialize`: header text truncated / zero-padded to 80 bytes,
triangle count cast to `uint32_t`, then the records.  The byte sink is
modelled as infallible (the `bool` result of the C++ function only
reports sink write failures). -/
def serialize (m : Mesh) (header : List Nat) (attr : Nat) : List Nat :=
  (header.take 80 ++ List.replicate (80 - header.length) 0) ++
  store_le 4 (m.tris.length % 2 ^ 32) ++
  recsBytes m.tris (attr % 2 ^ 16)

end Binary

/-! ## ASCII codec (`Ascii.cpp`)

Text is `List Char`; the C++ code works on bytes and all keyword /
whitespace / digit handling is plain ASCII. -/

/-- C-locale `isspace`. -/
def isSpaceC (c : Char) : Bool :=
  c == ' ' || c == '\t' || c == '\n' ||
  c == Char.ofNat 11 || c == Char.ofNat 12 || c == '\r'

/-- C-locale `tolower` on a byte. -/
def toLowerC (c : Char) : Char :=
  if 'A' ≤ c && c ≤ 'Z' then Char.ofNat (c.toNat + 32) else c

/-- `trim_sv`: strip leading and trailing whitespace. -/
def trim (s : List Char) : List Char :=
  ((s.dropWhile isSpaceC).reverse.dropWhile isSpaceC).reverse

/-- Take the maximal non-space run: returns the run and the rest. -/
def tokenAux : List Char → List Char × List Char
  | [] => ([], [])
  | c :: t =>
    if isSpaceC c then ([], c :: t)
    else ((c :: (tokenAux t).1), (tokenAux t).2)

theorem tokenAux_rest_le (l : List Char) : (tokenAux l).2.length ≤ l.length := by
  induction l with
  | nil => simp [tokenAux]
  | cons c t ih =>
    simp only [tokenAux]
    split
    · simp
    · simpa using Nat.le_succ_of_le ih

/-- Fueled worker for `tokenize_ws` (each step consumes at least one
character, so `l.length` fuel is always enough; the fuel only makes the
recursion structural). -/
def tokenizeAux : Nat → List Char → List (List Char)
  | 0, _ => []
  | _ + 1, [] => []
  | fuel + 1, c :: t =>
    if isSpaceC c then tokenizeAux fuel t
    else (c :: (tokenAux t).1) :: tokenizeAux fuel (tokenAux t).2

/-- `tokenize_ws`: skip whitespace, take the maximal non-space run as a
token, repeat. -/
def tokenize_ws (l : List Char) : List (List Char) := tokenizeAux l.length l

instance exceptDecEq {ε α : Type} [DecidableEq ε] [DecidableEq α] :
    DecidableEq (Except ε α) := fun a b =>
  match a, b with
  | .ok x, .ok y =>
    if h : x = y then .isTrue (congrArg Except.ok h)
    else .isFalse fun hh => h (Except.ok.inj hh)
  | .error x, .error y =>
    if h : x = y then .isTrue (congrArg Except.error h)
    else .isFalse fun hh => h (Except.error.inj hh)
  | .ok _, .error _ => .isFalse fun hh => Except.noConfusion hh
  | .error _, .ok _ => .isFalse fun hh => Except.noConfusion hh

/-- `eq_ci`: case-insensitive comparison of a token against a lowercase
keyword (size check plus per-character `tolower` comparison, i.e. the
lowercased token equals the keyword). -/
def eq_ci (a b : List Char) : Bool := a.map toLowerC == b

/-- `join_name`: join the name tokens with single spaces. -/
def join_name (toks : List (List Char)) : String :=
  String.intercalate (" ") (toks.map fun t => String.mk t)

/-- Apostrophe character, used in the parser's error messages. -/
def quoteC : Char := Char.ofNat 39

def quoted (s : String) : String := String.mk [quoteC] ++ s ++ String.mk [quoteC]

def lineMsg (n : Nat) (m : String) : String := "Line " ++ toString n ++ ": " ++ m

/-! `std::from_chars<float>` model. -/

def isDigitC (c : Char) : Bool := '0' ≤ c && c ≤ '9'

def digitVal (c : Char) : Nat := c.toNat - 48

/-- Consume a (possibly empty) digit run: value, digit count, rest. -/
def digitsAux : Nat → Nat → List Char → Nat × Nat × List Char
  | acc, k, [] => (acc, k, [])
  | acc, k, c :: t =>
    if isDigitC c then digitsAux (acc * 10 + digitVal c) (k + 1) t
    else (acc, k, c :: t)

def infBits : Nat := 255 * 2 ^ 23

def nanBits : Nat := 255 * 2 ^ 23 + 2 ^ 22

/-- Parse the optional exponent part; `none` when the token has trailing
characters `from_chars` would not consume (the caller requires the whole
token to be consumed). -/
def expPart : List Char → Option Int
  | [] => some 0
  | c :: t =>
    if c == 'e' || c == 'E' then
      let (eneg, t2) :=
        match t with
        | d :: t1 => if d == '-' then (true, t1) else if d == '+' then (false, t1) else (false, d :: t1)
        | [] => (false, [])
      match digitsAux 0 0 t2 with
      | (_, 0, _) => none
      | (ev, _, []) => some (if eneg then -(ev : Int) else (ev : Int))
      | _ => none
    else none

/-- `from_chars` on a whole token: optional minus sign, decimal digits
optionally containing one decimal point, optional exponent; `inf`,
`infinity` and `nan` (case-insensitive) accepted.  `none` models both a
parse failure and `errc::result_out_of_range` (overflow to infinity, or a
nonzero literal rounding to zero) — in every such case the caller's check
`ec == errc() && ptr == last` fails. -/
def from_chars_f32 (tok : List Char) : Option Nat :=
  let (neg, r1) :=
    match tok with
    | c :: t => if c == '-' then (true, t) else (false, c :: t)
    | [] => (false, [])
  let sbit : Nat := if neg then 2 ^ 31 else 0
  if eq_ci r1 ("inf".toList) || eq_ci r1 ("infinity".toList) then some (sbit + infBits)
  else if eq_ci r1 ("nan".toList) then some (sbit + nanBits)
  else
  let (iv, ic, r2) := digitsAux 0 0 r1
  let (fv, fc, r3) :=
    match r2 with
    | c :: t => if c == '.' then digitsAux 0 0 t else (0, 0, r2)
    | [] => (0, 0, ([] : List Char))
  if ic + fc == 0 then none
  else
    match expPart r3 with
    | none => none
    | some ev =>
      let mant : Nat := iv * 10 ^ fc + fv
      let ex : Int := ev - (fc : Int)
      let mag : Q :=
        if 0 ≤ ex then ⟨(mant : Int) * (2 : Int) ^ 0 * (10 : Int) ^ ex.toNat, 1⟩
        else ⟨(mant : Int), 10 ^ (-ex).toNat⟩
      let q : Q := if neg then qNeg mag else mag
      let bits := roundF32 q
      if mant ≠ 0 && (bits % 2 ^ 31 == 0 || bits / 2 ^ 23 % 256 == 255) then none
      else some bits

/-- `three_floats_from`: parse `toks[start..start+2]` as floats. -/
def three_floats_from (toks : List (List Char)) (start : Nat) :
    Except String (Nat × Nat × Nat) :=
  if toks.length < start + 3 then .error "Expected three floats"
  else
    match from_chars_f32 (toks.getD start []) with
    | none => .error ("Failed to parse number: " ++ quoted (String.mk (toks.getD start [])))
    | some fx =>
      match from_chars_f32 (toks.getD (start + 1) []) with
      | none => .error ("Failed to parse number: " ++ quoted (String.mk (toks.getD (start + 1) [])))
      | some fy =>
        match from_chars_f32 (toks.getD (start + 2) []) with
        | none => .error ("Failed to parse number: " ++ quoted (String.mk (toks.getD (start + 2) [])))
        | some fz => .ok (fx, fy, fz)

namespace ASCII

/-- The parser's phase state machine. -/
inductive Phase where
  | idle
  | have_facet
  | in_loop
  | have_v1
  | have_v2
deriving Repr, DecidableEq

/-- The parser's loop state: the mesh built so far, the `in_solid` flag,
the triangle being accumulated, the phase, the per-loop vertex counter and
the 1-based line number. -/
structure AState where
  mesh : Mesh
  in_solid : Bool
  current : Triangle
  phase : Phase
  vertex_count : Nat
  line_no : Nat
deriving Repr, DecidableEq

def initState : AState := ⟨⟨"", []⟩, false, defTri, .idle, 0, 0⟩

/-- Line-processing outcome: continue with a new state, or break out of
the loop (`endsolid`). -/
inductive LineOut where
  | next (st : AState)
  | done (st : AState)
deriving Repr, DecidableEq

def kwSolid : List Char := "solid".toList
def kwEndsolid : List Char := "endsolid".toList
def kwFacet : List Char := "facet".toList
def kwNormal : List Char := "normal".toList
def kwOuter : List Char := "outer".toList
def kwLoop : List Char := "loop".toList
def kwVertex : List Char := "vertex".toList
def kwEndloop : List Char := "endloop".toList
def kwEndfacet : List Char := "endfacet".toList

def facetMsg (n : Nat) : String := lineMsg n (quoted "facet" ++ " where not expected")

def contentMsg (n : Nat) (lt : List Char) : String :=
  lineMsg n ("unexpected content: " ++ quoted (String.mk lt))

def outerMsg (n : Nat) : String := lineMsg n (quoted "outer loop" ++ " without facet")

def vertexMsg (n : Nat) : String := lineMsg n (quoted "vertex" ++ " outside of loop")

def tooManyMsg (n : Nat) : String := lineMsg n ("too many vertices in loop")

def endloopMsg (n : Nat) : String :=
  lineMsg n (quoted "endloop" ++ " before three vertices")

def endfacetMsg (n : Nat) : String :=
  lineMsg n (quoted "endfacet" ++ " without complete triangle")

def solidMsg (n : Nat) : String := lineMsg n ("expected " ++ quoted "solid")

def eofMsg : String := "Unexpected EOF: unterminated facet/loop"

/-- The keyword dispatch on one tokenized line (the body of the `for`
loop in `ASCII::parse` after the blank-line skips), in source order. -/
def processToks (cmn : Bool) (st : AState) (lt : List Char) :
    List (List Char) → Except String LineOut
  | [] => .ok (.next st)
  | t0 :: rest =>
    if !st.in_solid then
      if !eq_ci t0 kwSolid then .error (solidMsg st.line_no)
      else .ok (.next { st with mesh := { st.mesh with name := join_name rest },
                                in_solid := true })
    else if eq_ci t0 kwEndsolid then
      .ok (.done { st with in_solid := false })
    else if eq_ci t0 kwFacet then
      match rest with
      | [] => .error (facetMsg st.line_no)
      | t1 :: _ =>
        if !eq_ci t1 kwNormal then .error (facetMsg st.line_no)
        else if st.phase ≠ Phase.idle then .error (facetMsg st.line_no)
        else
          match three_floats_from (t0 :: rest) 2 with
          | .error e => .error (lineMsg st.line_no e)
          | .ok (fx, fy, fz) =>
            .ok (.next { st with current := { st.current with normal := ⟨fx, fy, fz⟩ },
                                 phase := Phase.have_facet })
    else if eq_ci t0 kwOuter then
      match rest with
      | [] => .error (contentMsg st.line_no lt)
      | t1 :: _ =>
        if !eq_ci t1 kwLoop then .error (contentMsg st.line_no lt)
        else if st.phase ≠ Phase.have_facet then .error (outerMsg st.line_no)
        else .ok (.next { st with phase := Phase.in_loop, vertex_count := 0 })
    else if eq_ci t0 kwVertex then
      if st.phase ≠ Phase.in_loop ∧ st.phase ≠ Phase.have_v1 ∧ st.phase ≠ Phase.have_v2 then
        .error (vertexMsg st.line_no)
      else
        match three_floats_from (t0 :: rest) 1 with
        | .error e => .error (lineMsg st.line_no e)
        | .ok (fx, fy, fz) =>
          if st.vertex_count == 0 then
            .ok (.next { st with current := { st.current with v0 := ⟨fx, fy, fz⟩ },
                                 phase := Phase.have_v1,
                                 vertex_count := st.vertex_count + 1 })
          else if st.vertex_count == 1 then
            .ok (.next { st with current := { st.current with v1 := ⟨fx, fy, fz⟩ },
                                 phase := Phase.have_v2,
                                 vertex_count := st.vertex_count + 1 })
          else if st.vertex_count == 2 then
            .ok (.next { st with current := { st.current with v2 := ⟨fx, fy, fz⟩ },
                                 vertex_count := st.vertex_count + 1 })
          else .error (tooManyMsg st.line_no)
    else if eq_ci t0 kwEndloop then
      if st.vertex_count ≠ 3 then .error (endloopMsg st.line_no)
      else .ok (.next st)
    else if eq_ci t0 kwEndfacet then
      if st.vertex_count ≠ 3 ∨ st.phase ≠ Phase.have_v2 then .error (endfacetMsg st.line_no)
      else
        .ok (.next { st with mesh := { st.mesh with
                               tris := st.mesh.tris ++ [fillNormal cmn st.current] },
                             current := defTri,
                             phase := Phase.idle })
    else if eq_ci t0 kwSolid then
      .ok (.next { st with mesh := { st.mesh with name := join_name rest } })
    else .error (contentMsg st.line_no lt)

/-- Process one line: trim, skip blank lines, tokenize, dispatch. -/
def processLine (cmn : Bool) (st : AState) (line : List Char) :
    Except String LineOut :=
  let lt := trim line
  if lt.isEmpty then .ok (.next st)
  else processToks cmn st lt (tokenize_ws lt)

/-- The `for` loop over the lines, incrementing the line number at the
top and stopping early on `endsolid`. -/
def processLines (cmn : Bool) : AState → List (List Char) → Except String AState
  | st, [] => .ok st
  | st, l :: ls =>
    match processLine cmn { st with line_no := st.line_no + 1 } l with
    | .error e => .error e
    | .ok (.next st2) => processLines cmn st2 ls
    | .ok (.done st2) => .ok st2

/-- `text | std::views::split('\n')` (an empty text yields one empty line). -/
def splitNl : List Char → List (List Char)
  | [] => [[]]
  | c :: t =>
    if c == '\n' then [] :: splitNl t
    else
      match splitNl t with
      | l :: ls => (c :: l) :: ls
      | [] => [[c]]

/-- The check after the line loop: an unterminated facet/loop at EOF is an
error, otherwise the mesh built so far is returned. -/
def finish (st : AState) : Except String Mesh :=
  if st.in_solid ∧ st.phase ≠ Phase.idle then .error eofMsg else .ok st.mesh

/-- `ASCII::parse` on a text buffer. -/
def parse (text : List Char) (cmn : Bool) : Except String Mesh :=
  match processLines cmn initState (splitNl text) with
  | .error e => .error e
  | .ok st => finish st

end ASCII

/-! ## ASCII serializer (`Ascii.cpp`, `serialize`) -/

/-- Zero-pad a digit string on the left to `p` characters. -/
def padZeros (p : Nat) (s : String) : String :=
  String.mk (List.replicate (p - s.length) '0') ++ s

/-- `std::format` with spec `{:.pf}`: fixed-point, exactly `p` fractional
digits, correctly rounded (ties to even) from the exact float value.
The sign of negative zero is not modelled (`f32ToRat` identifies -0.0
with 0.0; no claim below involves negative zero). -/
def fmtFixed (p : Nat) (b : Nat) : String :=
  let q := f32ToRat b
  let n := qRoundNE (qMul (qAbs q) ⟨(10 ^ p : Nat), 1⟩)
  let ip := n / 10 ^ p
  let fp := n % 10 ^ p
  (if q.num < 0 then "-" else "") ++ toString ip ++
  (if p == 0 then "" else "." ++ padZeros p (toString fp))

/-- The `fmt3` lambda: three formatted floats joined by single spaces. -/
def fmt3 (p : Nat) (v : Vec3) : String :=
  fmtFixed p v.x ++ " " ++ fmtFixed p v.y ++ " " ++ fmtFixed p v.z

namespace ASCII

/-- The serializer's triangle loop, accumulating into `out` exactly as the
C++ `+=` chain does; the normal is substituted by the face normal when it
is below the `1e-20f` threshold (`Ascii.cpp` lines 419-423). -/
def serializeLoop (p : Nat) : List Triangle → String → String
  | [], out => out
  | t :: ts, out =>
    let n := if normBelowEps t.normal then face_normal t else t.normal
    serializeLoop p ts
      (out ++ "  facet normal " ++ fmt3 p n ++ "\n" ++
       "    outer loop\n" ++
       "      vertex " ++ fmt3 p t.v0 ++ "\n" ++
       "      vertex " ++ fmt3 p t.v1 ++ "\n" ++
       "      vertex " ++ fmt3 p t.v2 ++ "\n" ++
       "    endloop\n" ++
       "  endfacet\n")

/-- `ASCII::serialize`: header line, triangle blocks, footer line. -/
def serialize (m : Mesh) (p : Nat) : String :=
  serializeLoop p m.tris ("solid " ++ m.name ++ "\n") ++
  ("endsolid " ++ m.name ++ "\n")

end ASCII

/-! ## Substring search (for claims about error-message contents) -/

/-- `needle` is a leading segment of `hay`. -/
def leadSeg : List Char → List Char → Bool
  | [], _ => true
  | _ :: _, [] => false
  | a :: as, b :: bs => a == b && leadSeg as bs

def hasSub (needle : List Char) : List Char → Bool
  | [] => leadSeg needle []
  | c :: t => leadSeg needle (c :: t) || hasSub needle t

/-- `hay` contains `needle` as a contiguous substring. -/
def strContains (hay needle : String) : Bool := hasSub needle.data hay.data

/-- Concatenation of a list of strings (used to state the shape of the
serializer output). -/
def strConcat : List String → String
  | [] => ""
  | s :: t => s ++ strConcat t

/-! ## Autodetect dispatcher (`Parse.cpp`)

The dispatcher saves the stream position, reads 6 probe bytes, restores
the position and routes; both parsers therefore see the stream from its
original position, i.e. the whole input. -/

/-- The first 6 bytes of the probe comparison, the literal `"solid "`. -/
def solidSpace : List Nat := [115, 111, 108, 105, 100, 32]

/-- `readOk == 6 && string_view(probe,6) == "solid "`. -/
def detectAscii (bs : List Nat) : Bool :=
  decide (6 ≤ bs.length) && (bs.take 6 == solidSpace)

/-- `Harmony::STL::parse`: probe, rewind, dispatch.  The ASCII branch
reads the whole (restored) stream as text. -/
def parse (bs : List Nat) (cmn : Bool) : Except String Mesh :=
  if detectAscii bs then ASCII.parse (bs.map Char.ofNat) cmn
  else Binary.parse bs cmn

/-! ## Helper lemmas -/

/-- A bit pattern is a valid `float` object representation. -/
abbrev f32valid (b : Nat) : Prop := b < 2 ^ 32

abbrev vecValid (v : Vec3) : Prop := f32valid v.x ∧ f32valid v.y ∧ f32valid v.z

abbrev triValid (t : Triangle) : Prop :=
  vecValid t.normal ∧ vecValid t.v0 ∧ vecValid t.v1 ∧ vecValid t.v2

/-- The bit pattern denotes a finite float (exponent field below 255). -/
def f32finite (b : Nat) : Bool := b / 2 ^ 23 % 256 != 255

def triFinite (t : Triangle) : Bool :=
  f32finite t.normal.x && f32finite t.normal.y && f32finite t.normal.z &&
  f32finite t.v0.x && f32finite t.v0.y && f32finite t.v0.z &&
  f32finite t.v1.x && f32finite t.v1.y && f32finite t.v1.z &&
  f32finite t.v2.x && f32finite t.v2.y && f32finite t.v2.z

theorem fillNormal_of_big {t : Triangle} (h : normBelowEps t.normal = false)
    (cmn : Bool) : fillNormal cmn t = t := by
  simp [fillNormal, h]

theorem load_store4 (v : Nat) (h : v < 2 ^ 32) :
    Binary.load_le (Binary.store_le 4 v) = v := by
  have e : Binary.load_le (Binary.store_le 4 v) =
      v % 256 % 256 + 256 * (v / 256 % 256 % 256 + 256 * (v / 256 / 256 % 256 % 256 +
        256 * (v / 256 / 256 / 256 % 256 % 256 + 256 * 0))) := rfl
  rw [e]
  omega

theorem store_le4_length (v : Nat) : (Binary.store_le 4 v).length = 4 := rfl

theorem store_le2_length (v : Nat) : (Binary.store_le 2 v).length = 2 := rfl

theorem rawRec_length (t : Triangle) (attr : Nat) :
    (Binary.rawRec t attr).length = 50 := by
  simp [Binary.rawRec, List.length_append, store_le4_length, store_le2_length]

theorem read_exact_append {xs : List Nat} {n : Nat} (h : xs.length = n)
    (ys : List Nat) : Binary.read_exact n (xs ++ ys) = some (xs, ys) := by
  unfold Binary.read_exact
  rw [if_neg, List.take_left' h, List.drop_left' h]
  rw [List.length_append, h]
  omega

set_option maxHeartbeats 2000000 in
theorem decode_rawRec (t : Triangle) (attr : Nat) (hv : triValid t) :
    Binary.decodeTri (Binary.rawRec t attr) = t := by
  obtain ⟨⟨n1, n2, n3⟩, ⟨a1, a2, a3⟩, ⟨b1, b2, b3⟩, ⟨c1, c2, c3⟩⟩ := t
  obtain ⟨⟨h1, h2, h3⟩, ⟨h4, h5, h6⟩, ⟨h7, h8, h9⟩, ⟨h10, h11, h12⟩⟩ := hv
  have e : Binary.decodeTri
      (Binary.rawRec ⟨⟨n1, n2, n3⟩, ⟨a1, a2, a3⟩, ⟨b1, b2, b3⟩, ⟨c1, c2, c3⟩⟩ attr) =
      ⟨⟨Binary.load_le (Binary.store_le 4 n1), Binary.load_le (Binary.store_le 4 n2),
        Binary.load_le (Binary.store_le 4 n3)⟩,
       ⟨Binary.load_le (Binary.store_le 4 a1), Binary.load_le (Binary.store_le 4 a2),
        Binary.load_le (Binary.store_le 4 a3)⟩,
       ⟨Binary.load_le (Binary.store_le 4 b1), Binary.load_le (Binary.store_le 4 b2),
        Binary.load_le (Binary.store_le 4 b3)⟩,
       ⟨Binary.load_le (Binary.store_le 4 c1), Binary.load_le (Binary.store_le 4 c2),
        Binary.load_le (Binary.store_le 4 c3)⟩⟩ := rfl
  rw [e, load_store4 n1 h1, load_store4 n2 h2, load_store4 n3 h3,
      load_store4 a1 h4, load_store4 a2 h5, load_store4 a3 h6,
      load_store4 b1 h7, load_store4 b2 h8, load_store4 b3 h9,
      load_store4 c1 h10, load_store4 c2 h11, load_store4 c3 h12]

theorem parseRecs_ok (cmn : Bool) (attr : Nat) :
    ∀ ts : List Triangle, (∀ t ∈ ts, triValid t) →
    (∀ t ∈ ts, normBelowEps t.normal = false) →
    Binary.parseRecs cmn ts.length (Binary.recsBytes ts attr) = .ok ts := by
  intro ts
  induction ts with
  | nil => intro _ _; rfl
  | cons t ts ih =>
    intro hv hn
    have hvt : triValid t := hv t (by simp)
    have hnt : normBelowEps t.normal = false := hn t (by simp)
    have hrb : Binary.recBytes t attr = Binary.rawRec t attr := by
      simp [Binary.recBytes, hnt]
    have ih2 := ih (fun x hx => hv x (by simp [hx])) (fun x hx => hn x (by simp [hx]))
    simp only [List.length_cons, Binary.recsBytes, hrb, Binary.parseRecs,
      read_exact_append (rawRec_length t attr), decode_rawRec t attr hvt,
      fillNormal_of_big hnt, ih2]

theorem parseRecs_short (cmn : Bool) : ∀ (n : Nat) (bs : List Nat),
    bs.length < 50 * n → Binary.parseRecs cmn n bs = .error Binary.triMsg := by
  intro n
  induction n with
  | zero => intro bs h; exact absurd h (by omega)
  | succ n ih =>
    intro bs h
    by_cases h50 : bs.length < 50
    · simp [Binary.parseRecs, Binary.read_exact, h50]
    · have hd : (bs.drop 50).length < 50 * n := by
        rw [List.length_drop]; omega
      simp [Binary.parseRecs, Binary.read_exact, h50, ih _ hd]

theorem hasSub_append {nd b : List Char} (h : hasSub nd b = true) :
    ∀ a : List Char, hasSub nd (a ++ b) = true := by
  intro a
  induction a with
  | nil => simpa using h
  | cons c t ih => simp [hasSub, ih]

theorem strContains_append (a : String) {b nd : String}
    (h : strContains b nd = true) : strContains (a ++ b) nd = true := by
  unfold strContains at *
  rw [String.data_append]
  exact hasSub_append h _

theorem processLine_blank (cmn : Bool) (st : ASCII.AState) (l : List Char)
    (h : (trim l).isEmpty = true) : ASCII.processLine cmn st l = .ok (.next st) := by
  unfold ASCII.processLine
  simp [h]

theorem processLines_blank (cmn : Bool) : ∀ (ls : List (List Char)) (st : ASCII.AState),
    (∀ l ∈ ls, (trim l).isEmpty = true) →
    ∃ k, ASCII.processLines cmn st ls = .ok { st with line_no := k } := by
  intro ls
  induction ls with
  | nil => intro st _; exact ⟨st.line_no, rfl⟩
  | cons l ls ih =>
    intro st h
    have h1 := h l (by simp)
    obtain ⟨k, hk⟩ := ih { st with line_no := st.line_no + 1 }
      (fun x hx => h x (by simp [hx]))
    exact ⟨k, by simp [ASCII.processLines, processLine_blank cmn _ _ h1, hk]⟩

theorem read_exact_all {xs : List Nat} {n : Nat} (h : xs.length = n) :
    Binary.read_exact n xs = some (xs, []) := by
  have h2 := read_exact_append h ([])
  rwa [List.append_nil] at h2

theorem parseRecs_one (cmn : Bool) (t : Triangle) (hv : triValid t) (attr : Nat) :
    Binary.parseRecs cmn 1 (Binary.rawRec t attr) = .ok [fillNormal cmn t] := by
  simp only [Binary.parseRecs, read_exact_all (rawRec_length t attr),
    decode_rawRec t attr hv]

/-- One-record binary input built directly from a triangle's bit
patterns: 80-byte zero header, count 1, one raw record. -/
def oneRecInput (t : Triangle) : List Nat :=
  List.replicate 80 0 ++ Binary.store_le 4 1 ++ Binary.rawRec t 0

theorem parse_oneRec (cmn : Bool) (t : Triangle) (hv : triValid t) :
    Binary.parse (oneRecInput t) cmn = .ok ⟨"", [fillNormal cmn t]⟩ := by
  have hrepl : (List.replicate 80 (0 : Nat)).length = 80 := by simp
  unfold oneRecInput Binary.parse
  rw [List.append_assoc]
  simp only [read_exact_append hrepl, read_exact_append (store_le4_length 1),
    (by decide : Binary.load_le (Binary.store_le 4 1) = 1),
    parseRecs_one cmn t hv 0,
    (by decide : String.mk ((Binary.trimTrail (List.replicate 80 0)).map Char.ofNat) = "")]

/-! ## Claim theorems -/

/-- C1 (amended): for every mesh whose triangle components are valid
32-bit patterns, whose normals have component absolute-value sum at or
above the `1e-20f` substitution threshold, and whose triangle count fits
in the 32-bit count field, parsing the bytes produced by the binary
serializer (any header, any attribute byte count, either
`compute_missing_normals` setting) recovers every triangle bit-for-bit,
in order. -/
theorem binary_roundtrip_exact (m : Mesh) (header : List Nat) (attr : Nat)
    (cmn : Bool) (hv : ∀ t ∈ m.tris, triValid t)
    (hn : ∀ t ∈ m.tris, normBelowEps t.normal = false)
    (hc : m.tris.length < 2 ^ 32) :
    ∃ nm, Binary.parse (Binary.serialize m header attr) cmn = .ok ⟨nm, m.tris⟩ := by
  have hH : (header.take 80 ++ List.replicate (80 - header.length) 0).length = 80 := by
    simp [List.length_take, List.length_replicate]
    omega
  have hcnt : m.tris.length % 2 ^ 32 = m.tris.length := Nat.mod_eq_of_lt hc
  refine ⟨String.mk ((Binary.trimTrail
      (header.take 80 ++ List.replicate (80 - header.length) 0)).map Char.ofNat), ?_⟩
  unfold Binary.serialize Binary.parse
  rw [hcnt, List.append_assoc]
  simp only [read_exact_append hH, read_exact_append (store_le4_length m.tris.length),
    load_store4 m.tris.length hc, parseRecs_ok cmn (attr % 2 ^ 16) m.tris hv hn]

/-- C1 witness: a concrete round trip through the theorem. -/
theorem binary_roundtrip_exact_witness :
    ∃ nm, Binary.parse (Binary.serialize
        ⟨"m", [⟨⟨0, 0, 1065353216⟩, ⟨0, 0, 0⟩, ⟨1065353216, 0, 0⟩, ⟨0, 1065353216, 0⟩⟩]⟩
        [104, 105] 7) true =
      .ok ⟨nm, [⟨⟨0, 0, 1065353216⟩, ⟨0, 0, 0⟩, ⟨1065353216, 0, 0⟩, ⟨0, 1065353216, 0⟩⟩]⟩ :=
  binary_roundtrip_exact
    ⟨"m", [⟨⟨0, 0, 1065353216⟩, ⟨0, 0, 0⟩, ⟨1065353216, 0, 0⟩, ⟨0, 1065353216, 0⟩⟩]⟩
    [104, 105] 7 true (by decide) (by decide) (by decide)

/-- C1 counterexample: the triangle's normal `(2^-149, 0, 0)` (bit
patterns `(1,0,0)`) is finite and non-zero, yet the round trip through
the binary serializer returns the all-zero triangle instead: the
serializer replaces any normal whose absolute-value sum is below
`1e-20f` — not only zero normals — by the computed face normal, which is
zero for this degenerate triangle. -/
theorem binary_roundtrip_cex :
    triFinite ⟨⟨1, 0, 0⟩, zeroVec, zeroVec, zeroVec⟩ = true ∧
    (⟨⟨1, 0, 0⟩, zeroVec, zeroVec, zeroVec⟩ : Triangle).normal ≠ zeroVec ∧
    Binary.parse
      (Binary.serialize ⟨"m", [⟨⟨1, 0, 0⟩, zeroVec, zeroVec, zeroVec⟩]⟩ [] 0) true =
      .ok ⟨"", [defTri]⟩ ∧
    ([defTri] : List Triangle) ≠ [⟨⟨1, 0, 0⟩, zeroVec, zeroVec, zeroVec⟩] := by
  decide

/-- C2: for every input of at least 6 bytes, the autodetect dispatcher
routes to the ASCII parser exactly when the first 6 bytes are the literal
`"solid "`, and to the binary parser otherwise; the chosen parser
receives the stream from its original position (the whole input). -/
theorem autodetect_routes (bs : List Nat) (cmn : Bool) (h : 6 ≤ bs.length) :
    (detectAscii bs = true ↔ bs.take 6 = solidSpace) ∧
    parse bs cmn = (if bs.take 6 = solidSpace then ASCII.parse (bs.map Char.ofNat) cmn
                    else Binary.parse bs cmn) := by
  have hd : detectAscii bs = (bs.take 6 == solidSpace) := by
    simp [detectAscii, h]
  constructor
  · rw [hd]
    exact beq_iff_eq
  · unfold parse
    rw [hd]
    by_cases hb : bs.take 6 = solidSpace
    · simp [hb]
    · simp [hb]

/-- C2 witness. -/
theorem autodetect_routes_witness :
    (detectAscii [115, 111, 108, 105, 100, 32, 120] = true ↔
      List.take 6 [115, 111, 108, 105, 100, 32, 120] = solidSpace) ∧
    parse [115, 111, 108, 105, 100, 32, 120] true =
      (if List.take 6 [115, 111, 108, 105, 100, 32, 120] = solidSpace
       then ASCII.parse (List.map Char.ofNat [115, 111, 108, 105, 100, 32, 120]) true
       else Binary.parse [115, 111, 108, 105, 100, 32, 120] true) :=
  autodetect_routes [115, 111, 108, 105, 100, 32, 120] true (by decide)

/-- C8: a binary input whose count field declares `N` triangles but which
is too short to hold `N` complete 50-byte records after the 84-byte
prefix fails with the "unexpected EOF in triangle data" error; the
result is an `error` value carrying only the message, so no
partially-read triangle is retained. -/
theorem binary_truncated_records (bs : List Nat) (N : Nat) (cmn : Bool)
    (h84 : 84 ≤ bs.length)
    (hN : Binary.load_le ((bs.drop 80).take 4) = N)
    (hshort : bs.length < 84 + 50 * N) :
    Binary.parse bs cmn = .error Binary.triMsg ∧
    strContains Binary.triMsg ("unexpected EOF in triangle data") = true := by
  constructor
  · have h80 : ¬ bs.length < 80 := by omega
    have h4 : ¬ (bs.drop 80).length < 4 := by
      rw [List.length_drop]
      omega
    have hr : ((bs.drop 80).drop 4).length < 50 * N := by
      simp only [List.length_drop]
      omega
    unfold Binary.parse Binary.read_exact
    simp only [if_neg h80, if_neg h4, hN, parseRecs_short cmn N _ hr]
  · decide

/-- C8 witness: the spec scenario — header of `'H'` bytes, count 2, only
one record present. -/
theorem binary_truncated_records_witness :
    Binary.parse (List.replicate 80 72 ++ [2, 0, 0, 0] ++ List.replicate 50 0) true =
      .error Binary.triMsg ∧
    strContains Binary.triMsg ("unexpected EOF in triangle data") = true :=
  binary_truncated_records (List.replicate 80 72 ++ [2, 0, 0, 0] ++ List.replicate 50 0)
    2 true (by decide) (by decide) (by decide)

/-- C9: an ASCII input consisting only of blank/whitespace lines (or
empty input) parses successfully to a mesh with empty name and no
triangles; the missing leading `solid` error is not raised. -/
theorem ascii_blank_input (text : List Char) (cmn : Bool)
    (h : ∀ l ∈ ASCII.splitNl text, (trim l).isEmpty = true) :
    ASCII.parse text cmn = .ok ⟨"", []⟩ := by
  obtain ⟨k, hk⟩ := processLines_blank cmn (ASCII.splitNl text) ASCII.initState h
  unfold ASCII.parse
  rw [hk]
  rfl

/-- C9 witness. -/
theorem ascii_blank_input_witness :
    ASCII.parse (" \n\t\n\n".toList) true = .ok ⟨"", []⟩ :=
  ascii_blank_input (" \n\t\n\n".toList) true (by decide)

/-- C10: within a solid, an `endsolid` line is accepted in any parser
phase and with any vertex count; line processing stops immediately (the
remaining lines `more` are never inspected), the partially accumulated
`current` triangle is discarded, and the final check succeeds with
exactly the triangles already pushed by `endfacet`. -/
theorem endsolid_any_phase (cmn : Bool) (st : ASCII.AState) (line : List Char)
    (t0 : List Char) (rest more : List (List Char))
    (htok : tokenize_ws (trim line) = t0 :: rest)
    (ht : eq_ci t0 ASCII.kwEndsolid = true)
    (hs : st.in_solid = true) :
    ASCII.processLines cmn st (line :: more) =
      .ok { st with in_solid := false, line_no := st.line_no + 1 } ∧
    ASCII.finish { st with in_solid := false, line_no := st.line_no + 1 } =
      .ok st.mesh := by
  have hne : (trim line).isEmpty = false := by
    cases hl : trim line with
    | nil =>
      rw [hl] at htok
      simp [tokenize_ws, tokenizeAux] at htok
    | cons c t => rfl
  constructor
  · simp only [ASCII.processLines, ASCII.processLine, hne, htok, Bool.false_eq_true,
      if_false, ASCII.processToks, hs, ht, Bool.not_true, if_true]
  · simp [ASCII.finish]

/-- C10 witness. -/
theorem endsolid_any_phase_witness :
    ASCII.processLines true
        ⟨⟨"x", [defTri]⟩, true, defTri, ASCII.Phase.in_loop, 1, 4⟩
        (("endsolid x".toList) :: [("garbage".toList)]) =
      .ok ⟨⟨"x", [defTri]⟩, false, defTri, ASCII.Phase.in_loop, 1, 5⟩ ∧
    ASCII.finish ⟨⟨"x", [defTri]⟩, false, defTri, ASCII.Phase.in_loop, 1, 5⟩ =
      .ok ⟨"x", [defTri]⟩ :=
  endsolid_any_phase true ⟨⟨"x", [defTri]⟩, true, defTri, ASCII.Phase.in_loop, 1, 4⟩
    ("endsolid x".toList) ("endsolid".toList) [("x".toList)] [("garbage".toList)]
    (by decide) (by decide) rfl

/-- C6 (amended): an `endloop` line within a solid is accepted exactly
when the per-loop vertex counter equals 3, and otherwise fails with the
line-numbered error `'endloop' before three vertices`, whose message
contains "three vertices" — in particular `endloop` after only 2
vertices fails that way.  (The counter is reset by `outer loop` but not
by `endfacet`, so a stray `endloop` directly after a completed facet is
also accepted; see the counterexample.) -/
theorem endloop_rule (cmn : Bool) (st : ASCII.AState) (lt t0 : List Char)
    (rest : List (List Char))
    (ht : eq_ci t0 ASCII.kwEndloop = true) (hs : st.in_solid = true) :
    (ASCII.processToks cmn st lt (t0 :: rest) =
      if st.vertex_count = 3 then .ok (.next st)
      else .error (ASCII.endloopMsg st.line_no)) ∧
    strContains (ASCII.endloopMsg st.line_no) ("three vertices") = true ∧
    (∀ cmn2 : Bool,
      ASCII.parse (String.toList
        ("solid x\nfacet normal 0 0 1\nouter loop\nvertex 0 0 0\n" ++
         "vertex 1 0 0\nendloop\nendsolid x\n")) cmn2 =
        .error (ASCII.endloopMsg 6)) := by
  have hm : List.map toLowerC t0 = ASCII.kwEndloop := by
    have h2 := ht
    unfold eq_ci at h2
    exact beq_iff_eq.mp h2
  have e1 : eq_ci t0 ASCII.kwSolid = false := by unfold eq_ci; rw [hm]; decide
  have e2 : eq_ci t0 ASCII.kwEndsolid = false := by unfold eq_ci; rw [hm]; decide
  have e3 : eq_ci t0 ASCII.kwFacet = false := by unfold eq_ci; rw [hm]; decide
  have e4 : eq_ci t0 ASCII.kwOuter = false := by unfold eq_ci; rw [hm]; decide
  have e5 : eq_ci t0 ASCII.kwVertex = false := by unfold eq_ci; rw [hm]; decide
  refine ⟨?_, ?_, ?_⟩
  · by_cases h3 : st.vertex_count = 3 <;>
      simp only [ASCII.processToks, hs, ht, e1, e2, e3, e4, e5, Bool.not_true,
        Bool.false_eq_true, if_false, if_true, h3, ne_eq, not_true_eq_false,
        not_false_eq_true, if_neg, if_pos]
  · show strContains ((("Line " ++ toString st.line_no) ++ ": ") ++
        (quoted "endloop" ++ " before three vertices")) ("three vertices") = true
    exact strContains_append _ (by decide)
  · intro cmn2
    cases cmn2 <;> decide

/-- C6 witness: `endloop` after only 2 vertices in the current loop is
rejected with the "three vertices" message. -/
theorem endloop_rule_witness :
    (ASCII.processToks true ⟨⟨"x", []⟩, true, defTri, ASCII.Phase.have_v2, 2, 6⟩
        ("endloop".toList) (("endloop".toList) :: []) =
      if (⟨⟨"x", []⟩, true, defTri, ASCII.Phase.have_v2, 2, 6⟩ : ASCII.AState).vertex_count = 3
      then .ok (.next ⟨⟨"x", []⟩, true, defTri, ASCII.Phase.have_v2, 2, 6⟩)
      else .error (ASCII.endloopMsg 6)) ∧
    strContains (ASCII.endloopMsg 6) ("three vertices") = true ∧
    (∀ cmn2 : Bool,
      ASCII.parse (String.toList
        ("solid x\nfacet normal 0 0 1\nouter loop\nvertex 0 0 0\n" ++
         "vertex 1 0 0\nendloop\nendsolid x\n")) cmn2 =
        .error (ASCII.endloopMsg 6)) :=
  endloop_rule true ⟨⟨"x", []⟩, true, defTri, ASCII.Phase.have_v2, 2, 6⟩
    ("endloop".toList) ("endloop".toList) [] (by decide) rfl

/-- C6 counterexample: the claim says `endloop` is accepted only with
exactly 3 vertices read in the current outer loop, but after a completed
facet (no loop open, no vertices read since) a stray `endloop` line is
accepted, because the vertex counter is still 3 from the previous loop:
this input parses successfully despite the `endloop` on line 9 standing
outside any loop. -/
theorem endloop_stale_counter_cex :
    ASCII.parse (String.toList
      ("solid s\nfacet normal 0 0 1\nouter loop\nvertex 0 0 0\nvertex 1 0 0\n" ++
       "vertex 0 1 0\nendloop\nendfacet\nendloop\nendsolid s\n")) true =
      .ok ⟨"s", [⟨⟨0, 0, 1065353216⟩, ⟨0, 0, 0⟩, ⟨1065353216, 0, 0⟩,
                  ⟨0, 1065353216, 0⟩⟩]⟩ := by
  decide

/-- C7 (amended): for an ASCII input that opens a solid and never closes
it (the line loop completes with `in_solid` still set), the parse
succeeds — returning the triangles read so far — exactly when the phase
is idle at end of input; otherwise it fails with the unterminated
facet/loop error, whose message contains "Unexpected EOF" (with a
capital U; the claim's lowercase "unexpected EOF" does not occur, see
the counterexample). -/
theorem ascii_eof_rule (text : List Char) (cmn : Bool) (st : ASCII.AState)
    (hp : ASCII.processLines cmn ASCII.initState (ASCII.splitNl text) = .ok st)
    (hs : st.in_solid = true) :
    ((∃ m2, ASCII.parse text cmn = .ok m2) ↔ st.phase = ASCII.Phase.idle) ∧
    (st.phase = ASCII.Phase.idle → ASCII.parse text cmn = .ok st.mesh) ∧
    (st.phase ≠ ASCII.Phase.idle →
      ASCII.parse text cmn = .error ASCII.eofMsg ∧
      strContains ASCII.eofMsg ("Unexpected EOF") = true) := by
  have hparse : ASCII.parse text cmn = ASCII.finish st := by
    unfold ASCII.parse
    rw [hp]
  by_cases hph : st.phase = ASCII.Phase.idle
  · have hok : ASCII.parse text cmn = .ok st.mesh := by
      rw [hparse]
      unfold ASCII.finish
      rw [if_neg (by simp [hph])]
    exact ⟨⟨fun _ => hph, fun _ => ⟨st.mesh, hok⟩⟩, fun _ => hok, fun h => absurd hph h⟩
  · have herr : ASCII.parse text cmn = .error ASCII.eofMsg := by
      rw [hparse]
      unfold ASCII.finish
      rw [if_pos ⟨hs, hph⟩]
    refine ⟨⟨fun hex => ?_, fun h => absurd h hph⟩,
      fun h => absurd h hph, fun _ => ⟨herr, by decide⟩⟩
    obtain ⟨m2, hm2⟩ := hex
    rw [herr] at hm2
    exact Except.noConfusion hm2

/-- C7 witness: a solid with no facets and no `endsolid` parses
successfully (phase idle at EOF). -/
theorem ascii_eof_rule_witness :
    ((∃ m2, ASCII.parse ("solid x\n".toList) true = .ok m2) ↔
      (⟨⟨"x", []⟩, true, defTri, ASCII.Phase.idle, 0, 2⟩ : ASCII.AState).phase =
        ASCII.Phase.idle) ∧
    ((⟨⟨"x", []⟩, true, defTri, ASCII.Phase.idle, 0, 2⟩ : ASCII.AState).phase =
        ASCII.Phase.idle →
      ASCII.parse ("solid x\n".toList) true = .ok ⟨"x", []⟩) ∧
    ((⟨⟨"x", []⟩, true, defTri, ASCII.Phase.idle, 0, 2⟩ : ASCII.AState).phase ≠
        ASCII.Phase.idle →
      ASCII.parse ("solid x\n".toList) true = .error ASCII.eofMsg ∧
      strContains ASCII.eofMsg ("Unexpected EOF") = true) :=
  ascii_eof_rule ("solid x\n".toList) true
    ⟨⟨"x", []⟩, true, defTri, ASCII.Phase.idle, 0, 2⟩ (by decide) rfl

/-- C7 counterexample: on an unterminated facet the parser's error is
`Unexpected EOF: unterminated facet/loop`, which does not contain the
claim's (lowercase) string "unexpected EOF". -/
theorem ascii_eof_message_cex :
    ASCII.parse ("solid x\nfacet normal 0 0 0\n".toList) true =
      .error ASCII.eofMsg ∧
    strContains ASCII.eofMsg ("unexpected EOF") = false := by
  decide

/-- C4: with `compute_missing_normals = true`, both parsers apply the
same completion to each finished triangle — a stored normal with
absolute-value sum below `1e-20f` is replaced by `face_normal` of the
three parsed vertices, and one at or above the threshold is kept
unchanged; moreover, when the computed cross product is the zero vector,
`face_normal` returns it unchanged (the normalizing division is behind
the `len > 0` guard, so no division by zero occurs). -/
theorem normal_completion_enabled :
    (∀ (st : ASCII.AState) (lt t0 : List Char) (rest : List (List Char)),
      eq_ci t0 ASCII.kwEndfacet = true → st.in_solid = true →
      st.vertex_count = 3 → st.phase = ASCII.Phase.have_v2 →
      ASCII.processToks true st lt (t0 :: rest) =
        .ok (.next { st with
          mesh := { st.mesh with tris := st.mesh.tris ++
            [if normBelowEps st.current.normal
             then { st.current with normal := face_normal st.current }
             else st.current] },
          current := defTri, phase := ASCII.Phase.idle })) ∧
    (∀ t : Triangle, triValid t →
      Binary.parse (oneRecInput t) true =
        .ok ⟨"", [if normBelowEps t.normal
                  then { t with normal := face_normal t } else t]⟩) ∧
    (∀ t : Triangle, crossOf t = zeroVec → face_normal t = zeroVec) := by
  refine ⟨?_, ?_, ?_⟩
  · intro st lt t0 rest ht hs h3 hph
    have hm : List.map toLowerC t0 = ASCII.kwEndfacet := by
      have h2 := ht
      unfold eq_ci at h2
      exact beq_iff_eq.mp h2
    have e1 : eq_ci t0 ASCII.kwSolid = false := by unfold eq_ci; rw [hm]; decide
    have e2 : eq_ci t0 ASCII.kwEndsolid = false := by unfold eq_ci; rw [hm]; decide
    have e3 : eq_ci t0 ASCII.kwFacet = false := by unfold eq_ci; rw [hm]; decide
    have e4 : eq_ci t0 ASCII.kwOuter = false := by unfold eq_ci; rw [hm]; decide
    have e5 : eq_ci t0 ASCII.kwVertex = false := by unfold eq_ci; rw [hm]; decide
    have e6 : eq_ci t0 ASCII.kwEndloop = false := by unfold eq_ci; rw [hm]; decide
    simp only [ASCII.processToks, hs, ht, e1, e2, e3, e4, e5, e6, Bool.not_true,
      Bool.false_eq_true, if_false, if_true, h3, hph, ne_eq, not_true_eq_false,
      not_false_eq_true, or_self, if_neg, fillNormal, Bool.true_and]
  · intro t hv
    rw [parse_oneRec true t hv]
    simp only [fillNormal, Bool.true_and]
  · intro t hc
    unfold face_normal
    rw [hc]
    rfl

/-- C4 witness: the degenerate all-zero triangle exercises the
substitution branch in both parsers and the zero-cross guard. -/
theorem normal_completion_enabled_witness :
    ASCII.processToks true ⟨⟨"", []⟩, true, defTri, ASCII.Phase.have_v2, 3, 9⟩
        ("endfacet".toList) (("endfacet".toList) :: []) =
      .ok (.next { (⟨⟨"", []⟩, true, defTri, ASCII.Phase.have_v2, 3, 9⟩ : ASCII.AState) with
        mesh := { (⟨"", []⟩ : Mesh) with tris := ([] : List Triangle) ++
          [if normBelowEps defTri.normal
           then { defTri with normal := face_normal defTri } else defTri] },
        current := defTri, phase := ASCII.Phase.idle }) ∧
    Binary.parse (oneRecInput defTri) true =
      .ok ⟨"", [if normBelowEps defTri.normal
                then { defTri with normal := face_normal defTri } else defTri]⟩ ∧
    face_normal defTri = zeroVec :=
  ⟨normal_completion_enabled.1 ⟨⟨"", []⟩, true, defTri, ASCII.Phase.have_v2, 3, 9⟩
      ("endfacet".toList) ("endfacet".toList) [] (by decide) rfl rfl rfl,
   normal_completion_enabled.2.1 defTri (by decide),
   normal_completion_enabled.2.2 defTri (by decide)⟩

/-- C5: with `compute_missing_normals = false`, a facet whose stated
normal is `(0,0,0)` keeps exactly that normal in the result, in both
parsers — no recomputation is performed. -/
theorem normal_completion_disabled :
    (∀ (st : ASCII.AState) (lt t0 : List Char) (rest : List (List Char)),
      eq_ci t0 ASCII.kwEndfacet = true → st.in_solid = true →
      st.vertex_count = 3 → st.phase = ASCII.Phase.have_v2 →
      st.current.normal = zeroVec →
      ASCII.processToks false st lt (t0 :: rest) =
        .ok (.next { st with
          mesh := { st.mesh with tris := st.mesh.tris ++ [st.current] },
          current := defTri, phase := ASCII.Phase.idle })) ∧
    (∀ t : Triangle, triValid t → t.normal = zeroVec →
      Binary.parse (oneRecInput t) false = .ok ⟨"", [t]⟩) := by
  constructor
  · intro st lt t0 rest ht hs h3 hph _
    have hm : List.map toLowerC t0 = ASCII.kwEndfacet := by
      have h2 := ht
      unfold eq_ci at h2
      exact beq_iff_eq.mp h2
    have e1 : eq_ci t0 ASCII.kwSolid = false := by unfold eq_ci; rw [hm]; decide
    have e2 : eq_ci t0 ASCII.kwEndsolid = false := by unfold eq_ci; rw [hm]; decide
    have e3 : eq_ci t0 ASCII.kwFacet = false := by unfold eq_ci; rw [hm]; decide
    have e4 : eq_ci t0 ASCII.kwOuter = false := by unfold eq_ci; rw [hm]; decide
    have e5 : eq_ci t0 ASCII.kwVertex = false := by unfold eq_ci; rw [hm]; decide
    have e6 : eq_ci t0 ASCII.kwEndloop = false := by unfold eq_ci; rw [hm]; decide
    simp only [ASCII.processToks, hs, ht, e1, e2, e3, e4, e5, e6, Bool.not_true,
      Bool.false_eq_true, if_false, if_true, h3, hph, ne_eq, not_true_eq_false,
      not_false_eq_true, or_self, if_neg, fillNormal, Bool.false_and]
  · intro t hv _
    rw [parse_oneRec false t hv]
    simp [fillNormal]

/-- C5 witness: a zero-normal triangle with distinct vertices is stored
verbatim when completion is disabled. -/
theorem normal_completion_disabled_witness :
    ASCII.processToks false
        ⟨⟨"", []⟩, true, ⟨zeroVec, ⟨0, 0, 0⟩, ⟨1065353216, 0, 0⟩, ⟨0, 1065353216, 0⟩⟩,
         ASCII.Phase.have_v2, 3, 9⟩
        ("endfacet".toList) (("endfacet".toList) :: []) =
      .ok (.next { (⟨⟨"", []⟩, true,
            ⟨zeroVec, ⟨0, 0, 0⟩, ⟨1065353216, 0, 0⟩, ⟨0, 1065353216, 0⟩⟩,
            ASCII.Phase.have_v2, 3, 9⟩ : ASCII.AState) with
        mesh := { (⟨"", []⟩ : Mesh) with tris := ([] : List Triangle) ++
          [⟨zeroVec, ⟨0, 0, 0⟩, ⟨1065353216, 0, 0⟩, ⟨0, 1065353216, 0⟩⟩] },
        current := defTri, phase := ASCII.Phase.idle }) ∧
    Binary.parse
        (oneRecInput ⟨zeroVec, ⟨0, 0, 0⟩, ⟨1065353216, 0, 0⟩, ⟨0, 1065353216, 0⟩⟩) false =
      .ok ⟨"", [⟨zeroVec, ⟨0, 0, 0⟩, ⟨1065353216, 0, 0⟩, ⟨0, 1065353216, 0⟩⟩]⟩ :=
  ⟨normal_completion_disabled.1
      ⟨⟨"", []⟩, true, ⟨zeroVec, ⟨0, 0, 0⟩, ⟨1065353216, 0, 0⟩, ⟨0, 1065353216, 0⟩⟩,
       ASCII.Phase.have_v2, 3, 9⟩
      ("endfacet".toList) ("endfacet".toList) [] (by decide) rfl rfl rfl rfl,
   normal_completion_disabled.2
      ⟨zeroVec, ⟨0, 0, 0⟩, ⟨1065353216, 0, 0⟩, ⟨0, 1065353216, 0⟩⟩ (by decide) rfl⟩

theorem serializeLoop_acc (p : Nat) : ∀ (ts : List Triangle) (out : String),
    ASCII.serializeLoop p ts out = out ++ strConcat (ts.map fun t =>
      "  facet normal " ++
        fmt3 p (if normBelowEps t.normal then face_normal t else t.normal) ++ "\n" ++
      "    outer loop\n" ++
      "      vertex " ++ fmt3 p t.v0 ++ "\n" ++
      "      vertex " ++ fmt3 p t.v1 ++ "\n" ++
      "      vertex " ++ fmt3 p t.v2 ++ "\n" ++
      "    endloop\n" ++ "  endfacet\n") := by
  intro ts
  induction ts with
  | nil => intro out; simp [ASCII.serializeLoop, strConcat, String.append_empty]
  | cons t ts ih =>
    intro out
    simp only [ASCII.serializeLoop, List.map_cons, strConcat, ih, String.append_assoc]

/-- C3 (amended): the ASCII serializer emits, for each triangle whose
normal has absolute-value sum below `1e-20f`, a facet-normal line
carrying the computed face normal instead of the stored normal, and
leaves normals at or above the threshold unchanged — made exact by this
characterization of the whole output.  (The output can nevertheless
contain an all-zero printed normal: when the substituted face normal is
itself zero — degenerate triangle — or when a kept normal rounds to zero
at the chosen precision; see the counterexample.) -/
theorem ascii_serialize_normal_subst (m : Mesh) (p : Nat) :
    ASCII.serialize m p =
      ("solid " ++ m.name ++ "\n") ++
      strConcat (m.tris.map fun t =>
        "  facet normal " ++
          fmt3 p (if normBelowEps t.normal then face_normal t else t.normal) ++ "\n" ++
        "    outer loop\n" ++
        "      vertex " ++ fmt3 p t.v0 ++ "\n" ++
        "      vertex " ++ fmt3 p t.v1 ++ "\n" ++
        "      vertex " ++ fmt3 p t.v2 ++ "\n" ++
        "    endloop\n" ++ "  endfacet\n") ++
      ("endsolid " ++ m.name ++ "\n") := by
  unfold ASCII.serialize
  rw [serializeLoop_acc]

/-- C3 counterexample: serializing a degenerate triangle (all vertices
equal, zero normal) emits the literal all-zero facet-normal line — the
substituted face normal is itself zero, so the writer does emit a
literal all-zero normal, contradicting the claim's "in no case" part. -/
theorem ascii_serialize_zero_cex :
    strContains (ASCII.serialize ⟨"m", [defTri]⟩ 6)
      ("facet normal 0.000000 0.000000 0.000000") = true := by
  decide

end Harmony.STL
